import Mathlib

/-!
Verification of the page-codec and container core of the openxteailink
repository: the 1-bit mono (XTG) codec, the 4-level gray (XTH) codec with
its bitplane packing and its dithering quantizer, the PDF page
normalization geometry, and the XTC container builder. All definitions are
shallow embeddings of the Python sources in src/conversion_service.py and
src/xtc_encoder.py; machine bytes are modelled as natural numbers below
256 and floating point values as exact rationals.
-/

/-- Errors named by the specification taxonomy. The Python sources contain
no validation raising any of these; encode and build functions below embed
the source faithfully and therefore always return an ok value. The type is
only the codomain tag needed to state the error-handling claims. -/
inductive XTCError where
  | invalidDimensions
  | invalidThresholds
  | emptyPageSet
  | inconsistentBlobHeader
deriving DecidableEq, Repr

/-- Little-endian packing of a natural number into k bytes: the semantics
of a struct.pack integer field for an in-range value (struct.pack raises
on out-of-range input; here the value wraps modulo 256 ^ k, which agrees
with the source whenever the value is in range). -/
def packLE (k n : Nat) : List Nat :=
  (List.range k).map (fun i => n / 256 ^ i % 256)

/-! ## Mono codec: ConversionService.png_to_xtg_bytes
(src/conversion_service.py lines 1177-1219). -/

/-- Default binarization threshold of png_to_xtg_bytes
(conversion_service.py line 1177, keyword default threshold=168). -/
def xtg_threshold_default : Nat := 168

/-- Bytes per packed mono row: row_bytes = (w + 7) // 8
(conversion_service.py line 1192). -/
def xtg_row_bytes (w : Nat) : Nat := (w + 7) / 8

/-- Byte j of row y of the mono payload. The source loops over all x,
setting bit 7 - (x % 8) of byte y * row_bytes + x // 8 when
pixels[x, y] >= threshold (conversion_service.py lines 1196-1203); byte j
therefore collects x = 8 * j + k for k < 8 with x < w, topmost bit for
the leftmost pixel. pix is the pixel matrix indexed pix x y as in the
source. -/
def xtgByte (pix : Nat → Nat → Nat) (t w y j : Nat) : Nat :=
  (List.range 8).foldl
    (fun acc k => if 8 * j + k < w ∧ t ≤ pix (8 * j + k) y then acc ||| (1 <<< (7 - k)) else acc) 0

/-- The mono payload: rows in order, each row its row_bytes bytes in order
(conversion_service.py lines 1193-1203). -/
def xtg_payload (pix : Nat → Nat → Nat) (t w h : Nat) : List Nat :=
  (List.range h).flatMap (fun y => (List.range (xtg_row_bytes w)).map (fun j => xtgByte pix t w y j))

/-! ## Bit-packing helper lemmas. -/

theorem foldl_pack_testBit (F : Nat → Nat → Nat) (c : Nat → Prop) [DecidablePred c]
    (b : Nat → Nat)
    (hF : ∀ acc i, F acc i = if c i then acc ||| (b i <<< (7 - i)) else acc)
    (l : List Nat) (a p : Nat) :
    (l.foldl F a).testBit p
      = (a.testBit p || l.any (fun i => decide (c i) && (b i <<< (7 - i)).testBit p)) := by
  induction l generalizing a with
  | nil => simp
  | cons x xs ih =>
    rw [List.foldl_cons, ih, hF]
    by_cases hc : c x
    · simp [hc, Nat.testBit_or, Bool.or_assoc]
    · simp [hc]

theorem testBit_bit_shiftLeft (b k p : Nat) (hb : b ≤ 1) :
    (b <<< k).testBit p = (decide (b = 1) && decide (p = k)) := by
  interval_cases b
  · simp [Nat.zero_shiftLeft]
  · simp only [Nat.shiftLeft_eq, one_mul, Nat.testBit_two_pow]
    simp [eq_comm]

theorem xtgByte_testBit (pix : Nat → Nat → Nat) (t w y j k : Nat) (hk : k < 8) :
    ((xtgByte pix t w y j).testBit (7 - k) = true ↔ (8 * j + k < w ∧ t ≤ pix (8 * j + k) y)) := by
  unfold xtgByte
  rw [foldl_pack_testBit _ (fun i => 8 * j + i < w ∧ t ≤ pix (8 * j + i) y) (fun _ => 1)
      (fun acc i => rfl)]
  simp only [Nat.zero_testBit, Bool.false_or, List.any_eq_true, List.mem_range,
    Bool.and_eq_true, decide_eq_true_eq]
  constructor
  · rintro ⟨i, hi, hci, hbit⟩
    rw [testBit_bit_shiftLeft 1 (7 - i) (7 - k) (le_refl 1)] at hbit
    simp only [decide_eq_true_eq, Bool.and_eq_true] at hbit
    have : i = k := by omega
    exact this ▸ hci
  · intro hc
    refine ⟨k, hk, hc, ?_⟩
    rw [testBit_bit_shiftLeft 1 (7 - k) (7 - k) (le_refl 1)]
    simp

/-- Uniform inner length makes flatMap indexable like a matrix. -/
theorem getElem?_flatMap_uniform {α β : Type} (l : List α) (g : α → List β) (B : Nat)
    (hB : ∀ a ∈ l, (g a).length = B) :
    ∀ c b : Nat, b < B → (hc : c < l.length) → (l.flatMap g)[c * B + b]? = (g l[c])[b]? := by
  induction l with
  | nil => intro c b _ hc; simp at hc
  | cons a l ih =>
    intro c b hb hc
    cases c with
    | zero =>
      have hlen : (g a).length = B := hB a (List.mem_cons_self a l)
      rw [List.flatMap_cons, List.getElem?_append_left (by omega)]
      simp
    | succ c =>
      have hlen : (g a).length = B := hB a (List.mem_cons_self a l)
      have hge : (g a).length ≤ (c + 1) * B + b := by
        have : B ≤ (c + 1) * B + b := by nlinarith
        omega
      rw [List.flatMap_cons, List.getElem?_append_right hge]
      have hidx : (c + 1) * B + b - (g a).length = c * B + b := by
        rw [hlen]; ring_nf; omega
      rw [hidx]
      have hc2 : c < l.length := by simpa using hc
      have := ih (fun x hx => hB x (List.mem_cons_of_mem a hx)) c b hb hc2
      simpa using this

theorem length_flatMap_uniform {α β : Type} (l : List α) (g : α → List β) (B : Nat)
    (hB : ∀ a ∈ l, (g a).length = B) : (l.flatMap g).length = l.length * B := by
  induction l with
  | nil => simp
  | cons a l ih =>
    rw [List.flatMap_cons, List.length_append, hB a (List.mem_cons_self a l),
      ih (fun x hx => hB x (List.mem_cons_of_mem a hx))]
    simp [Nat.succ_mul, Nat.add_comm, Nat.mul_comm]

theorem xtg_payload_length (pix : Nat → Nat → Nat) (t w h : Nat) :
    (xtg_payload pix t w h).length = h * xtg_row_bytes w := by
  unfold xtg_payload
  rw [length_flatMap_uniform _ _ (xtg_row_bytes w) (fun a _ => by simp)]
  simp

theorem xtg_payload_getElem? (pix : Nat → Nat → Nat) (t w h y j : Nat)
    (hy : y < h) (hj : j < xtg_row_bytes w) :
    (xtg_payload pix t w h)[y * xtg_row_bytes w + j]? = some (xtgByte pix t w y j) := by
  unfold xtg_payload
  rw [getElem?_flatMap_uniform _ _ (xtg_row_bytes w) (fun a _ => by simp) y j hj (by simpa)]
  simp [hj, List.getElem_range]

/-! ## Gray codec: XTHWriter (src/xtc_encoder.py lines 129-330). -/

/-- The fixed level remap lut_map = {0: 0, 1: 2, 2: 1, 3: 3} of
XTHWriter._encode_bitplanes (xtc_encoder.py line 249). Total on Nat: it
agrees with the Python dict on inputs 0..3; the source raises KeyError
outside that range, and every claim restricts levels to 0..3. -/
def xth_lut (v : Nat) : Nat := if v = 1 then 2 else if v = 2 then 1 else v

/-- The inverted remapped level: mapped_values = 3 - lut(pixel)
(xtc_encoder.py lines 250-253). -/
def xth_final (v : Nat) : Nat := 3 - xth_lut v

/-- Number of 8-pixel vertical bands per column: the loop
for y in range(0, height, 8) runs (h + 7) // 8 times
(xtc_encoder.py line 261). -/
def xth_bands (h : Nat) : Nat := (h + 7) / 8

/-- Plane bit extraction: bit1 = (v >> 1) & 1 for plane 1 and
bit2 = v & 1 for plane 2 (xtc_encoder.py lines 269-270). -/
def xth_planeBit (p v : Nat) : Nat := if p = 1 then (v >>> 1) &&& 1 else v &&& 1

/-- One packed byte of plane p for column x, band starting at row y0:
for i in range(8), when y0 + i < h the bit of the final level of pixel
(row y0 + i, column x) lands at position 7 - i, MSB = topmost pixel; rows
beyond the height contribute nothing (xtc_encoder.py lines 262-277). vals
is the level matrix indexed vals y x as mapped_values[y + i, x] is in the
source. -/
def xthByte (p : Nat) (vals : Nat → Nat → Nat) (h x y0 : Nat) : Nat :=
  (List.range 8).foldl
    (fun acc i =>
      if y0 + i < h then acc ||| (xth_planeBit p (xth_final (vals (y0 + i) x)) <<< (7 - i))
      else acc) 0

/-- All bytes of one plane: columns scanned from x = w - 1 down to x = 0,
and for each column the bands top to bottom (xtc_encoder.py
lines 259-277). -/
def xth_plane (p : Nat) (vals : Nat → Nat → Nat) (w h : Nat) : List Nat :=
  ((List.range w).reverse).flatMap
    (fun x => (List.range (xth_bands h)).map (fun b => xthByte p vals h x (8 * b)))

/-- The gray payload: all plane-1 bytes then all plane-2 bytes, in the same
enumeration order (xtc_encoder.py lines 206-207 append plane1 then
plane2). -/
def xth_payload (vals : Nat → Nat → Nat) (w h : Nat) : List Nat :=
  xth_plane 1 vals w h ++ xth_plane 2 vals w h

theorem xth_planeBit_le_one (p v : Nat) : xth_planeBit p v ≤ 1 := by
  unfold xth_planeBit
  split <;> exact Nat.and_le_right

theorem xthByte_testBit (p : Nat) (vals : Nat → Nat → Nat) (h x y0 i : Nat) (hi : i < 8) :
    ((xthByte p vals h x y0).testBit (7 - i) = true ↔
      (y0 + i < h ∧ xth_planeBit p (xth_final (vals (y0 + i) x)) = 1)) := by
  unfold xthByte
  rw [foldl_pack_testBit _ (fun j => y0 + j < h)
      (fun j => xth_planeBit p (xth_final (vals (y0 + j) x))) (fun acc j => rfl)]
  simp only [Nat.zero_testBit, Bool.false_or, List.any_eq_true, List.mem_range,
    Bool.and_eq_true, decide_eq_true_eq]
  constructor
  · rintro ⟨j, hj, hcj, hbit⟩
    rw [testBit_bit_shiftLeft _ _ _ (xth_planeBit_le_one _ _)] at hbit
    simp only [decide_eq_true_eq, Bool.and_eq_true] at hbit
    have : j = i := by omega
    subst this
    exact ⟨hcj, hbit.1⟩
  · rintro ⟨hcond, hbit⟩
    refine ⟨i, hi, hcond, ?_⟩
    rw [testBit_bit_shiftLeft _ _ _ (xth_planeBit_le_one _ _)]
    simp [hbit]

theorem xth_plane_length (p : Nat) (vals : Nat → Nat → Nat) (w h : Nat) :
    (xth_plane p vals w h).length = w * xth_bands h := by
  unfold xth_plane
  rw [length_flatMap_uniform _ _ (xth_bands h) (fun a _ => by simp)]
  simp

theorem xth_plane_getElem? (p : Nat) (vals : Nat → Nat → Nat) (w h c b : Nat)
    (hc : c < w) (hb : b < xth_bands h) :
    (xth_plane p vals w h)[c * xth_bands h + b]? = some (xthByte p vals h (w - 1 - c) (8 * b)) := by
  unfold xth_plane
  rw [getElem?_flatMap_uniform _ _ (xth_bands h) (fun a _ => by simp) c b hb (by simpa)]
  simp [List.getElem_reverse, List.getElem_range, hb]

theorem xth_payload_length (vals : Nat → Nat → Nat) (w h : Nat) :
    (xth_payload vals w h).length = 2 * (w * xth_bands h) := by
  unfold xth_payload
  rw [List.length_append, xth_plane_length, xth_plane_length]
  ring

/-- Pointwise semantics of XTHWriter._convert_to_4level (xtc_encoder.py
lines 211-229): the source initializes result to 0 and then performs four
sequential numpy mask assignments, a later mask overwriting an earlier
one; for a single pixel value v this is the chain below. -/
def xth_convert_pixel (t1 t2 t3 v : Nat) : Nat :=
  let r0 := 0
  let r1 := if v < t1 then 0 else r0
  let r2 := if t1 ≤ v ∧ v < t2 then 1 else r1
  let r3 := if t2 ≤ v ∧ v < t3 then 2 else r2
  if t3 ≤ v then 3 else r3

/-- Elementwise application of _convert_to_4level to a whole image, indexed
img y x like the numpy array. -/
def xth_convert_img (t1 t2 t3 : Nat) (img : Nat → Nat → Nat) : Nat → Nat → Nat :=
  fun y x => xth_convert_pixel t1 t2 t3 (img y x)

/-- The gray encode path with dithering disabled, XTHWriter.encode
(xtc_encoder.py lines 157-209) restricted to its payload: quantize with
_convert_to_4level, then bitplane-encode. XTHWriter.__init__
(lines 135-155) and encode contain no threshold validation and no raise
statement, so the embedding always returns ok; the Except codomain exists
only so that the error-handling claims are statable. -/
def encode_gray (t1 t2 t3 : Nat) (img : Nat → Nat → Nat) (w h : Nat) :
    Except XTCError (List Nat) :=
  Except.ok (xth_payload (xth_convert_img t1 t2 t3 img) w h)

/-! ## Dithering quantizer: XTHWriter._floyd_steinberg_dither
(src/xtc_encoder.py lines 281-330), per-pixel step. The source works on a
float32 working copy; real arithmetic is modelled by exact rationals. -/

/-- The per-pixel 4-level quantization of the dithering loop
(xtc_encoder.py lines 307-315): old value below t1 gives level 0 with
reconstruction 0.0, below t2 level 1 with reconstruction 120.0, below t3
level 2 with reconstruction 170.0, otherwise level 3 with reconstruction
255.0. -/
def fs_quant (t1 t2 t3 v : ℚ) : Nat × ℚ :=
  if v < t1 then (0, 0)
  else if v < t2 then (1, 120)
  else if v < t3 then (2, 170)
  else (3, 255)

/-- The diffused error: error = old_val - new_val (xtc_encoder.py
line 318). -/
def fs_error (t1 t2 t3 v : ℚ) : ℚ := v - (fs_quant t1 t2 t3 v).2

/-- The four error-diffusion weights w_right, w_bl, w_b, w_br already
scaled by the dither strength (xtc_encoder.py lines 298-301). -/
def fs_weights (s : ℚ) : ℚ × ℚ × ℚ × ℚ :=
  (7 / 16 * s, 3 / 16 * s, 5 / 16 * s, 1 / 16 * s)

/-- The amounts added to the right, below-left, below and below-right
neighbors (when they exist) in one dithering step (xtc_encoder.py
lines 321-328). -/
def fs_deltas (t1 t2 t3 s v : ℚ) : ℚ × ℚ × ℚ × ℚ :=
  (fs_error t1 t2 t3 v * (fs_weights s).1,
   fs_error t1 t2 t3 v * (fs_weights s).2.1,
   fs_error t1 t2 t3 v * (fs_weights s).2.2.1,
   fs_error t1 t2 t3 v * (fs_weights s).2.2.2)

/-! ## Container builder: ConversionService.build_xtc_from_page_blobs
(src/conversion_service.py lines 1221-1279). -/

/-- Width read from a page blob: struct.unpack_from with format <HH at
offset 4 (conversion_service.py line 1243), first field. The source
raises struct.error when the blob is shorter than 8 bytes; out-of-range
indices default to 0 here and the claims assume blobs of length at
least 8. -/
def readBlobW (blob : List Nat) : Nat := blob.getD 4 0 + 256 * blob.getD 5 0

/-- Height read from a page blob: second field of the same unpack. -/
def readBlobH (blob : List Nat) : Nat := blob.getD 6 0 + 256 * blob.getD 7 0

/-- One 16-byte index entry, struct.pack format <Q I H H: offset (u64),
blob length (u32), width (u16), height (u16) (conversion_service.py
line 1244). -/
def xtc_index_entry (off len w h : Nat) : List Nat :=
  packLE 8 off ++ packLE 4 len ++ packLE 2 w ++ packLE 2 h

/-- The index table: one entry per blob in order, the running offset
starting at the data offset and advancing by each blob length
(conversion_service.py lines 1240-1246). -/
def xtc_index_table : Nat → List (List Nat) → List Nat
  | _, [] => []
  | off, blob :: rest =>
      xtc_index_entry off blob.length (readBlobW blob) (readBlobH blob)
        ++ xtc_index_table (off + blob.length) rest

/-- The data offset: header size 48 plus 16 bytes of index per page
(conversion_service.py lines 1232-1237). -/
def xtc_data_offset (n : Nat) : Nat := 48 + 16 * n

/-- The 48-byte XTC header, struct.pack format <4sHHBBBBIQQQQ with magic
XTC NUL, version 0x0100, page count, read direction, zero flags, zero
current page, zero metadata offset, index offset 48, the data offset and
zero thumbnail offset (conversion_service.py lines 1252-1266). -/
def xtc_header (pageCount dataOffset readDir : Nat) : List Nat :=
  [88, 84, 67, 0] ++ packLE 2 0x0100 ++ packLE 2 pageCount
    ++ [readDir % 256, 0, 0, 0] ++ packLE 4 0 ++ packLE 8 0 ++ packLE 8 48
    ++ packLE 8 dataOffset ++ packLE 8 0

/-- The bytes written by build_xtc_from_page_blobs: header, then index
table, then every blob in order with no gaps (conversion_service.py
lines 1273-1277). -/
def build_xtc_bytes (blobs : List (List Nat)) (readDir : Nat) : List Nat :=
  xtc_header blobs.length (xtc_data_offset blobs.length) readDir
    ++ xtc_index_table (xtc_data_offset blobs.length) blobs
    ++ blobs.flatten

/-- Result of build_xtc_from_page_blobs as seen by a caller. The source
contains no emptiness check and no raise statement: it writes the
container bytes for every blob list, including the empty one, so the
embedding always returns ok; the Except codomain exists only so that the
error-handling claims are statable. -/
def build_xtc (blobs : List (List Nat)) (readDir : Nat) : Except XTCError (List Nat) :=
  Except.ok (build_xtc_bytes blobs readDir)

theorem packLE_length (k n : Nat) : (packLE k n).length = k := by
  simp [packLE]

theorem xtc_index_entry_length (off len w h : Nat) :
    (xtc_index_entry off len w h).length = 16 := by
  simp [xtc_index_entry, packLE_length]

theorem xtc_header_length (pc d rd : Nat) : (xtc_header pc d rd).length = 48 := by
  simp [xtc_header, packLE_length]

theorem xtc_index_table_length (off : Nat) (blobs : List (List Nat)) :
    (xtc_index_table off blobs).length = 16 * blobs.length := by
  induction blobs generalizing off with
  | nil => simp [xtc_index_table]
  | cons b bs ih =>
    rw [xtc_index_table, List.length_append, xtc_index_entry_length, ih]
    simp [Nat.mul_succ, Nat.mul_add, Nat.add_comm]

theorem drop_take_of_append {α : Type} (A B C : List α) (n m : Nat)
    (hA : A.length = n) (hB : B.length = m) : ((A ++ (B ++ C)).drop n).take m = B := by
  subst hA hB
  rw [List.drop_left, List.take_left]

theorem xtc_index_table_drop_take (blobs : List (List Nat)) :
    ∀ off i, (hi : i < blobs.length) →
      ((xtc_index_table off blobs).drop (16 * i)).take 16
        = xtc_index_entry (off + ((blobs.take i).map List.length).sum)
            blobs[i].length (readBlobW blobs[i]) (readBlobH blobs[i]) := by
  induction blobs with
  | nil => intro off i hi; simp at hi
  | cons b bs ih =>
    intro off i hi
    cases i with
    | zero =>
      rw [xtc_index_table]
      simp only [Nat.mul_zero, List.drop_zero, List.take_zero, List.map_nil,
        List.sum_nil, Nat.add_zero, List.getElem_cons_zero]
      rw [List.take_append_of_le_length (by rw [xtc_index_entry_length])]
      rw [← xtc_index_entry_length off b.length (readBlobW b) (readBlobH b), List.take_length]
    | succ i =>
      rw [xtc_index_table]
      have hlen : (xtc_index_entry off b.length (readBlobW b) (readBlobH b)).length = 16 :=
        xtc_index_entry_length _ _ _ _
      have hdrop : 16 * (i + 1) = (xtc_index_entry off b.length (readBlobW b) (readBlobH b)).length
          + 16 * i := by omega
      rw [hdrop, List.drop_append]
      have hi2 : i < bs.length := by simpa using hi
      rw [ih (off + b.length) i hi2]
      simp [Nat.add_assoc]

theorem flatten_drop_take (blobs : List (List Nat)) :
    ∀ i, (hi : i < blobs.length) →
      (blobs.flatten.drop (((blobs.take i).map List.length).sum)).take blobs[i].length
        = blobs[i] := by
  induction blobs with
  | nil => intro i hi; simp at hi
  | cons b bs ih =>
    intro i hi
    cases i with
    | zero => simp [List.take_left]
    | succ i =>
      have hi2 : i < bs.length := by simpa using hi
      simp only [List.take_succ_cons, List.map_cons, List.sum_cons, List.flatten_cons,
        List.getElem_cons_succ]
      rw [List.drop_append]
      exact ih i hi2

theorem build_xtc_bytes_decomp (blobs : List (List Nat)) (rd : Nat) :
    build_xtc_bytes blobs rd
      = xtc_header blobs.length (xtc_data_offset blobs.length) rd
        ++ (xtc_index_table (xtc_data_offset blobs.length) blobs ++ blobs.flatten) := by
  rw [build_xtc_bytes, List.append_assoc]

theorem build_xtc_bytes_length (blobs : List (List Nat)) (rd : Nat) :
    (build_xtc_bytes blobs rd).length
      = 48 + 16 * blobs.length + (blobs.map List.length).sum := by
  rw [build_xtc_bytes]
  simp only [List.length_append, xtc_header_length, xtc_index_table_length,
    List.length_flatten]

/-! ## Page normalization geometry:
ConversionService.convert_pdf_to_png_pure
(src/conversion_service.py lines 729-807). -/

/-- Target canvas width, conversion_service.py line 744. -/
def target_width : Nat := 480

/-- Target canvas height, conversion_service.py line 744. -/
def target_height : Nat := 800

/-- Rendered content size for a source page of srcW by srcH points
(conversion_service.py lines 752-763): when the page is wider than the
target aspect ratio (srcW / srcH > 480 / 800, written cross-multiplied
over positive dimensions), render at full target width and height
int(target_width / pdf_ratio); otherwise at full target height and width
int(target_height * pdf_ratio). Python float division followed by int
truncation is modelled by natural floor division. -/
def fit_render_size (srcW srcH : Nat) : Nat × Nat :=
  if srcW * target_height > target_width * srcH then
    (target_width, target_width * srcH / srcW)
  else
    (target_height * srcW / srcH, target_height)

/-- Centered paste position (conversion_service.py lines 780-781):
paste_x = (target_width - render_width) // 2 and likewise for y. -/
def paste_offset (rw rh : Nat) : Nat × Nat :=
  ((target_width - rw) / 2, (target_height - rh) / 2)

/-- Pixel semantics of pasting the rendered content onto the white
background canvas (conversion_service.py lines 776-784): inside the pasted
rectangle the content pixel, outside it the background fill 255. -/
def pasted_pixel (content : Nat → Nat → Nat) (rw rh ox oy x y : Nat) : Nat :=
  if ox ≤ x ∧ x < ox + rw ∧ oy ≤ y ∧ y < oy + rh then content (x - ox) (y - oy) else 255

/-- The normalized page produced for one source page, before the e-ink
enhancement pass of line 787 (which preserves the canvas dimensions and
the paste geometry): render size from fit_render_size, centered offsets,
white fill elsewhere. content is the rendered source content indexed
content x y. -/
def normalize_pdf_page (content : Nat → Nat → Nat) (srcW srcH : Nat) : Nat → Nat → Nat :=
  fun x y =>
    pasted_pixel content (fit_render_size srcW srcH).1 (fit_render_size srcW srcH).2
      (paste_offset (fit_render_size srcW srcH).1 (fit_render_size srcW srcH).2).1
      (paste_offset (fit_render_size srcW srcH).1 (fit_render_size srcW srcH).2).2 x y

/-! ## Claim theorems. -/

/-- C9: the composite of the level remap {0→0, 1→2, 2→1, 3→3} with the
inversion final = 3 - remapped keeps every level in {0,1,2,3}, equals the
table {0→3, 1→1, 2→2, 3→0}, and is an involution, so applying it twice is
the identity on {0,1,2,3}. -/
theorem C9_remap_invert_involution :
    (∀ L, L < 4 → xth_final L < 4 ∧ xth_final (xth_final L) = L)
    ∧ xth_final 0 = 3 ∧ xth_final 1 = 1 ∧ xth_final 2 = 2 ∧ xth_final 3 = 0 := by
  refine ⟨fun L hL => ?_, by decide, by decide, by decide, by decide⟩
  interval_cases L <;> exact ⟨by decide, by decide⟩

theorem C9_remap_invert_involution_witness :
    xth_final 1 < 4 ∧ xth_final (xth_final 1) = 1 :=
  C9_remap_invert_involution.1 1 (by decide)

/-- C4 counterexample: with thresholds (85, 170, 255) the flat quantizer
of XTHWriter._convert_to_4level maps the mid-gray value 128 to level 1
(since 85 <= 128 < 170), not to level 2 as the claim states. -/
theorem C4_flat_quant_counterexample :
    xth_convert_pixel 85 170 255 128 = 1 ∧ xth_convert_pixel 85 170 255 128 ≠ 2 := by
  decide

/-- C4 amended: with dithering disabled and thresholds (85, 170, 255),
gray-encoding an image whose pixels are all equal to 128 quantizes every
pixel to level 1. -/
theorem C4_flat_quant_mid_gray (img : Nat → Nat → Nat)
    (h128 : ∀ y x, img y x = 128) :
    ∀ y x, xth_convert_img 85 170 255 img y x = 1 := by
  intro y x
  unfold xth_convert_img
  rw [h128]
  decide

theorem C4_flat_quant_mid_gray_witness :
    xth_convert_img 85 170 255 (fun _ _ => 128) 0 0 = 1 :=
  C4_flat_quant_mid_gray (fun _ _ => 128) (fun _ _ => rfl) 0 0

/-- C10: in the dithering path, a current value v below 85 quantizes to
level 0 with reconstruction 0, in [85, 170) to level 1 with reconstruction
120 (not 85), in [170, 255) to level 2 with reconstruction 170, and at or
above 255 to level 3 with reconstruction 255; the diffused error is
v minus the reconstruction, and the neighbor increments are that error
times the strength-scaled weights 7/16, 3/16, 5/16 and 1/16. -/
theorem C10_dither_quantization (v s : ℚ) :
    (v < 85 → fs_quant 85 170 255 v = (0, 0))
    ∧ (85 ≤ v → v < 170 → fs_quant 85 170 255 v = (1, 120) ∧ (fs_quant 85 170 255 v).2 ≠ 85)
    ∧ (170 ≤ v → v < 255 → fs_quant 85 170 255 v = (2, 170))
    ∧ (255 ≤ v → fs_quant 85 170 255 v = (3, 255))
    ∧ (85 ≤ v → v < 170 → fs_error 85 170 255 v = v - 120)
    ∧ fs_deltas 85 170 255 s v
        = (fs_error 85 170 255 v * (7 / 16 * s), fs_error 85 170 255 v * (3 / 16 * s),
           fs_error 85 170 255 v * (5 / 16 * s), fs_error 85 170 255 v * (1 / 16 * s)) := by
  have h1 : ∀ hv : 85 ≤ v, ∀ hv2 : v < 170, fs_quant 85 170 255 v = (1, 120) := by
    intro hv hv2
    unfold fs_quant
    rw [if_neg (by linarith), if_pos hv2]
  refine ⟨?_, ?_, ?_, ?_, ?_, rfl⟩
  · intro hv
    unfold fs_quant
    rw [if_pos hv]
  · intro hv hv2
    refine ⟨h1 hv hv2, ?_⟩
    rw [h1 hv hv2]
    norm_num
  · intro hv hv2
    unfold fs_quant
    rw [if_neg (by linarith), if_neg (by linarith), if_pos hv2]
  · intro hv
    unfold fs_quant
    rw [if_neg (by linarith), if_neg (by linarith), if_neg (by linarith)]
  · intro hv hv2
    unfold fs_error
    rw [h1 hv hv2]

theorem C10_dither_quantization_witness :
    fs_quant 85 170 255 128 = (1, 120) ∧ (fs_quant 85 170 255 128).2 ≠ 85 :=
  (C10_dither_quantization 128 (4 / 5)).2.1 (by norm_num) (by norm_num)

/-- C3 counterexample: for a 300 by 200 source on the 480 by 800 canvas the
code renders the content scaled to 480 by 320 and pastes it at offsets
(0, 240); it is neither the unscaled 300 by 200 region nor the offsets
(90, 300) of the claim. -/
theorem C3_fit_pad_counterexample :
    fit_render_size 300 200 = (480, 320)
    ∧ paste_offset 480 320 = (0, 240)
    ∧ ((480, 320) : Nat × Nat) ≠ (300, 200)
    ∧ ((0, 240) : Nat × Nat) ≠ (90, 300) := by
  refine ⟨by decide, by decide, by decide, by decide⟩

/-- C3 amended: normalizing a 300 by 200 source onto the 480 by 800 canvas
scales the content by 1.6 to 480 by 320 and pastes it centered at offsets
(0, 240); every canvas pixel outside that band is the background fill 255
(stated for the normalized page before the e-ink enhancement pass). -/
theorem C3_fit_pad_geometry (content : Nat → Nat → Nat) (x y : Nat)
    (hx : x < 480) (hy : y < 800) :
    fit_render_size 300 200 = (480, 320)
    ∧ paste_offset 480 320 = (0, 240)
    ∧ normalize_pdf_page content 300 200 x y
        = if 240 ≤ y ∧ y < 560 then content x (y - 240) else 255 := by
  refine ⟨by decide, by decide, ?_⟩
  have h1 : fit_render_size 300 200 = (480, 320) := by decide
  unfold normalize_pdf_page pasted_pixel
  rw [h1]
  by_cases hcond : 240 ≤ y ∧ y < 560
  · rw [if_pos, if_pos hcond]
    · simp [paste_offset, target_width, target_height]
    · refine ⟨?_, ?_, ?_, ?_⟩ <;> simp [paste_offset, target_width, target_height] <;> omega
  · rw [if_neg, if_neg hcond]
    simp only [paste_offset, target_width, target_height]
    omega

theorem C3_fit_pad_geometry_witness :
    normalize_pdf_page (fun _ _ => 7) 300 200 0 300 = 7 := by
  have h := C3_fit_pad_geometry (fun _ _ => 7) 0 300 (by norm_num) (by norm_num)
  rw [h.2.2]
  norm_num

/-- C7 counterexample: given zero blobs the container builder does not
signal EmptyPageSet; it writes a 48-byte container whose pageCount field
(bytes 6 and 7 of the header) is zero. -/
theorem C7_empty_container_counterexample :
    build_xtc [] 0 ≠ Except.error XTCError.emptyPageSet
    ∧ (build_xtc_bytes [] 0).length = 48
    ∧ ((build_xtc_bytes [] 0).drop 6).take 2 = [0, 0] := by
  refine ⟨?_, by decide, by decide⟩
  simp [build_xtc]

/-- C7 amended: for the empty blob list the container builder raises no
error and the container it writes is exactly the 48-byte header with
pageCount 0, data offset 48 and an empty index and data section. -/
theorem C7_empty_container_behavior :
    build_xtc [] 0 = Except.ok (xtc_header 0 48 0)
    ∧ (xtc_header 0 48 0).length = 48
    ∧ ((xtc_header 0 48 0).drop 6).take 2 = packLE 2 0 := by
  refine ⟨?_, by decide, by decide⟩
  simp [build_xtc, build_xtc_bytes, xtc_index_table, xtc_data_offset]

/-- C8 counterexample: the triple (85, 85, 85) is not strictly increasing,
yet gray encoding does not signal InvalidThresholds: it returns the
payload of a 1 by 1 all-128 image normally. -/
theorem C8_thresholds_counterexample :
    ¬ ((85 : Nat) < 85 ∧ (85 : Nat) < 85)
    ∧ encode_gray 85 85 85 (fun _ _ => 128) 1 1 = Except.ok [0, 0] := by
  exact ⟨by decide, rfl⟩

/-- C8 amended: gray encoding performs no threshold validation at all: for
every thresholds triple, strictly increasing or not, it signals no error
and returns a payload of the expected bitplane length. -/
theorem C8_no_threshold_validation (t1 t2 t3 : Nat) (img : Nat → Nat → Nat) (w h : Nat) :
    ∃ p, encode_gray t1 t2 t3 img w h = Except.ok p ∧ p.length = 2 * (w * xth_bands h) :=
  ⟨_, rfl, xth_payload_length _ w h⟩

/-- C5: the mono codec thresholds each pixel at the default 168 with bit 1
exactly when the value is at least the threshold, packs row-major with the
leftmost pixel of each group of 8 in bit 7, and on the 2 by 1 image with
pixels [200, 50] at threshold 168 the payload is the single byte 128,
that is 0b10000000. -/
theorem C5_mono_codec (pix : Nat → Nat → Nat) (t w h y j k : Nat)
    (hy : y < h) (hj : j < xtg_row_bytes w) (hk : k < 8) :
    xtg_threshold_default = 168
    ∧ (xtg_payload pix t w h)[y * xtg_row_bytes w + j]? = some (xtgByte pix t w y j)
    ∧ ((xtgByte pix t w y j).testBit (7 - k) = true ↔ (8 * j + k < w ∧ t ≤ pix (8 * j + k) y))
    ∧ xtg_payload (fun x _ => if x = 0 then 200 else 50) 168 2 1 = [128] :=
  ⟨rfl, xtg_payload_getElem? pix t w h y j hy hj, xtgByte_testBit pix t w y j k hk, by decide⟩

theorem C5_mono_codec_witness :
    (xtg_payload (fun x _ => if x = 0 then 200 else 50) 168 2 1)[0 * xtg_row_bytes 2 + 0]?
        = some (xtgByte (fun x _ => if x = 0 then 200 else 50) 168 2 0 0)
    ∧ ((xtgByte (fun x _ => if x = 0 then 200 else 50) 168 2 0 0).testBit (7 - 0) = true
        ↔ (8 * 0 + 0 < 2 ∧ 168 ≤ (fun x _ => if x = 0 then 200 else 50) (8 * 0 + 0) 0)) := by
  have h := C5_mono_codec (fun x _ => if x = 0 then 200 else 50) 168 2 1 0 0 0
    (by decide) (by decide) (by decide)
  exact ⟨h.2.1, h.2.2.1⟩

/-- C6 counterexample: encoding the 9 by 1 all-white image at threshold 168
gives payload [255, 128]; the last row byte is 128, whose high-order bit 7
is set by the ninth pixel, so it is false that the bits of the last byte
from position 9 mod 8 = 1 upward, the high-order ones the claim calls
unused, are always zero. The bits left unused by a partial byte are the
low-order positions. -/
theorem C6_unused_bits_counterexample :
    xtg_payload (fun _ _ => 255) 168 9 1 = [255, 128]
    ∧ ¬ (∀ p, 9 % 8 ≤ p → p < 8 → (128 : Nat).testBit p = false) := by
  refine ⟨by decide, ?_⟩
  intro hcl
  have h7 := hcl 7 (by norm_num) (by norm_num)
  have ht : (128 : Nat).testBit 7 = true := by decide
  rw [ht] at h7
  exact absurd h7 (by decide)

/-- C6 amended: for every width the mono payload has exactly
ceil(width / 8) bytes per row stored contiguously, and when the width is
not a multiple of 8 the unused low-order bits of the last byte of each
row are always 0. -/
theorem C6_row_packing (pix : Nat → Nat → Nat) (t w h y p : Nat)
    (hy : y < h) (hr : w % 8 ≠ 0) (hp : p + w % 8 < 8) :
    (xtg_payload pix t w h).length = h * xtg_row_bytes w
    ∧ (xtgByte pix t w y (xtg_row_bytes w - 1)).testBit p = false := by
  refine ⟨xtg_payload_length pix t w h, ?_⟩
  have hk : (7 : Nat) - (7 - p) = p := by omega
  have hchar := xtgByte_testBit pix t w y (xtg_row_bytes w - 1) (7 - p) (by omega)
  rw [hk] at hchar
  by_contra hne
  rw [Bool.not_eq_false] at hne
  have hcond := hchar.mp hne
  have harith : ¬ (8 * (xtg_row_bytes w - 1) + (7 - p) < w) := by
    unfold xtg_row_bytes
    omega
  exact harith hcond.1

theorem C6_row_packing_witness :
    (xtg_payload (fun _ _ => 255) 168 9 1).length = 1 * xtg_row_bytes 9
    ∧ (xtgByte (fun _ _ => 255) 168 9 0 (xtg_row_bytes 9 - 1)).testBit 0 = false :=
  C6_row_packing (fun _ _ => 255) 168 9 1 0 0 (by decide) (by decide) (by decide)

/-- C1: for a level matrix with entries in {0,1,2,3} the gray payload is
all plane-1 bytes followed by all plane-2 bytes, has total length
2 * W * ceil(H / 8), lists each plane column-major with columns scanned
from x = W - 1 down to x = 0 and each column in bands of 8 rows, and each
band byte holds, at bit 7 - i, the selected plane bit of
final = 3 - remap(level) for row y0 + i when that row exists and 0
otherwise, with the topmost pixel in the most significant bit. -/
theorem C1_gray_bitplanes (vals : Nat → Nat → Nat) (w h : Nat)
    (hvals : ∀ y x, vals y x < 4) :
    xth_payload vals w h = xth_plane 1 vals w h ++ xth_plane 2 vals w h
    ∧ (xth_plane 1 vals w h).length = w * xth_bands h
    ∧ (xth_payload vals w h).length = 2 * (w * xth_bands h)
    ∧ (∀ p c b, c < w → b < xth_bands h →
        (xth_plane p vals w h)[c * xth_bands h + b]?
          = some (xthByte p vals h (w - 1 - c) (8 * b)))
    ∧ (∀ p x y0 i, i < 8 →
        ((xthByte p vals h x y0).testBit (7 - i) = true ↔
          (y0 + i < h ∧ xth_planeBit p (xth_final (vals (y0 + i) x)) = 1)))
    ∧ (xth_lut 0 = 0 ∧ xth_lut 1 = 2 ∧ xth_lut 2 = 1 ∧ xth_lut 3 = 3)
    ∧ (∀ v, xth_final v = 3 - xth_lut v) :=
  ⟨rfl, xth_plane_length 1 vals w h, xth_payload_length vals w h,
    fun p c b hc hb => xth_plane_getElem? p vals w h c b hc hb,
    fun p x y0 i hi => xthByte_testBit p vals h x y0 i hi,
    ⟨by decide, by decide, by decide, by decide⟩, fun v => rfl⟩

theorem C1_gray_bitplanes_witness :
    (xth_plane 1 (fun y x => (y + x) % 4) 2 3)[1 * xth_bands 3 + 0]?
      = some (xthByte 1 (fun y x => (y + x) % 4) 3 (2 - 1 - 1) (8 * 0))
    ∧ (xth_payload (fun y x => (y + x) % 4) 2 3).length = 2 * (2 * xth_bands 3) := by
  have h := C1_gray_bitplanes (fun y x => (y + x) % 4) 2 3
    (fun y x => Nat.mod_lt _ (by norm_num))
  exact ⟨h.2.2.2.1 1 1 0 (by decide) (by decide), h.2.2.1⟩

/-- Header field facts provable by reduction: index offset field at bytes
24 to 31, data offset field at bytes 32 to 39, page count field at bytes 6
and 7. -/
theorem xtc_header_indexOffset (pc d rd : Nat) :
    ((xtc_header pc d rd).drop 24).take 8 = packLE 8 48 := rfl

theorem xtc_header_dataOffset (pc d rd : Nat) :
    ((xtc_header pc d rd).drop 32).take 8 = packLE 8 d := rfl

theorem xtc_header_pageCount (pc d rd : Nat) :
    ((xtc_header pc d rd).drop 6).take 2 = packLE 2 pc := rfl

/-- C2: for a non-empty list of page blobs the container is the 48-byte
header, N 16-byte index entries and the blobs concatenated with no gaps:
total length 48 + 16N + sum of blob lengths, indexOffset field 48,
dataOffset field 48 + 16N, entry i equal to the packed
(offset, length, width, height) with the offset 48 + 16N plus the lengths
of the blobs before i and width and height read from bytes 4 to 8 of blob
i, the bytes at entry i's offset equal to blob i, consecutive offsets
chaining as offset i + length i = offset (i+1), and the last range ending
exactly at end of file. -/
theorem C2_container_layout (blobs : List (List Nat)) (rd : Nat)
    (hne : blobs ≠ []) (hblob : ∀ b ∈ blobs, 8 ≤ b.length) :
    (build_xtc_bytes blobs rd).length
        = 48 + 16 * blobs.length + (blobs.map List.length).sum
    ∧ ((build_xtc_bytes blobs rd).drop 24).take 8 = packLE 8 48
    ∧ ((build_xtc_bytes blobs rd).drop 32).take 8 = packLE 8 (48 + 16 * blobs.length)
    ∧ (∀ i, (hi : i < blobs.length) →
        ((build_xtc_bytes blobs rd).drop (48 + 16 * i)).take 16
          = xtc_index_entry (48 + 16 * blobs.length + ((blobs.take i).map List.length).sum)
              blobs[i].length (readBlobW blobs[i]) (readBlobH blobs[i]))
    ∧ (∀ i, (hi : i < blobs.length) →
        ((build_xtc_bytes blobs rd).drop
            (48 + 16 * blobs.length + ((blobs.take i).map List.length).sum)).take
            blobs[i].length
          = blobs[i])
    ∧ (∀ i, (hi : i + 1 < blobs.length) →
        48 + 16 * blobs.length + ((blobs.take i).map List.length).sum
            + (blobs.get ⟨i, by omega⟩).length
          = 48 + 16 * blobs.length + ((blobs.take (i + 1)).map List.length).sum)
    ∧ 48 + 16 * blobs.length + ((blobs.take blobs.length).map List.length).sum
        = (build_xtc_bytes blobs rd).length := by
  have hdecomp := build_xtc_bytes_decomp blobs rd
  have hhl : (xtc_header blobs.length (xtc_data_offset blobs.length) rd).length = 48 :=
    xtc_header_length _ _ _
  have htl : (xtc_index_table (xtc_data_offset blobs.length) blobs).length
      = 16 * blobs.length := xtc_index_table_length _ _
  refine ⟨build_xtc_bytes_length blobs rd, ?_, ?_, ?_, ?_, ?_, ?_⟩
  · rw [hdecomp, List.drop_append_of_le_length (by omega),
      List.take_append_of_le_length (by rw [List.length_drop]; omega)]
    exact xtc_header_indexOffset _ _ _
  · rw [hdecomp, List.drop_append_of_le_length (by omega),
      List.take_append_of_le_length (by rw [List.length_drop]; omega)]
    exact xtc_header_dataOffset _ _ _
  · intro i hi
    rw [hdecomp]
    have e1 : 48 + 16 * i
        = (xtc_header blobs.length (xtc_data_offset blobs.length) rd).length + 16 * i := by
      omega
    rw [e1, List.drop_append,
      List.drop_append_of_le_length (by rw [htl]; omega),
      List.take_append_of_le_length (by rw [List.length_drop, htl]; omega)]
    exact xtc_index_table_drop_take blobs (xtc_data_offset blobs.length) i hi
  · intro i hi
    rw [hdecomp]
    have e1 : 48 + 16 * blobs.length + ((blobs.take i).map List.length).sum
        = (xtc_header blobs.length (xtc_data_offset blobs.length) rd).length
          + (16 * blobs.length + ((blobs.take i).map List.length).sum) := by
      omega
    rw [e1, List.drop_append]
    have e2 : 16 * blobs.length + ((blobs.take i).map List.length).sum
        = (xtc_index_table (xtc_data_offset blobs.length) blobs).length
          + ((blobs.take i).map List.length).sum := by
      omega
    rw [e2, List.drop_append]
    exact flatten_drop_take blobs i hi
  · intro i hi
    have hi2 : i < (blobs.map List.length).length := by
      rw [List.length_map]; omega
    have hsum := List.sum_take_succ (blobs.map List.length) i hi2
    rw [← List.map_take, ← List.map_take] at hsum
    rw [hsum]
    simp only [List.get_eq_getElem, List.getElem_map]
    omega
  · rw [List.take_length, build_xtc_bytes_length]


theorem C2_container_layout_witness :
    (build_xtc_bytes [List.replicate 118 0, List.replicate 22 0, List.replicate 5022 0] 0).length
        = 5258
    ∧ ((build_xtc_bytes [List.replicate 118 0, List.replicate 22 0,
          List.replicate 5022 0] 0).drop (48 + 16 * 1)).take 16
        = xtc_index_entry 214 22 0 0
    ∧ ((build_xtc_bytes [List.replicate 118 0, List.replicate 22 0,
          List.replicate 5022 0] 0).drop 32).take 8 = packLE 8 96 := by
  have h := C2_container_layout
    [List.replicate 118 0, List.replicate 22 0, List.replicate 5022 0] 0
    (List.cons_ne_nil _ _)
    (by
      intro b hb
      simp only [List.mem_cons, List.not_mem_nil, or_false] at hb
      rcases hb with h1 | h1 | h1 <;> subst h1 <;> rw [List.length_replicate] <;> norm_num)
  refine ⟨?_, ?_, ?_⟩
  · refine h.1.trans ?_
    simp only [List.map_cons, List.map_nil, List.length_replicate, List.sum_cons,
      List.sum_nil, List.length_cons, List.length_nil]
    norm_num
  · have h2 := h.2.2.2.1 1 (by norm_num)
    refine h2.trans ?_
    have ea : 48 + 16 * ([List.replicate 118 0, List.replicate 22 0,
          List.replicate 5022 0] : List (List Nat)).length
        + (List.map List.length
            (List.take 1 [List.replicate 118 0, List.replicate 22 0,
              List.replicate 5022 0])).sum = 214 := by
      simp only [List.take_succ_cons, List.take_zero, List.map_cons, List.map_nil,
        List.length_replicate, List.sum_cons, List.sum_nil, List.length_cons, List.length_nil]
      norm_num
    have eb : ([List.replicate 118 0, List.replicate 22 0,
          List.replicate 5022 0] : List (List Nat))[1] = List.replicate 22 0 := rfl
    rw [ea, eb]
    have ew : readBlobW (List.replicate 22 0) = 0 := by decide
    have eh : readBlobH (List.replicate 22 0) = 0 := by decide
    rw [ew, eh, List.length_replicate]
  · have h3 := h.2.2.1
    refine h3.trans ?_
    have e3 : 48 + 16 * ([List.replicate 118 0, List.replicate 22 0,
          List.replicate 5022 0] : List (List Nat)).length = 96 := by
      simp only [List.length_cons, List.length_nil]
    rw [e3]
